import Mathlib

/-!
Verification of the Adjusted-Coordinate Transformer
(`geomagio/algorithm/AdjustedAlgorithm.py`).

The Python class `AdjustedAlgorithm` is shallowly embedded below:

* matrices are `List (List ℚ)` (row-major, like 2-d numpy arrays of floats,
  modelled with exact rationals);
* Python exceptions (`KeyError`, `ValueError`, `IndexError`, `TypeError`)
  become an error type `PyErr` and fallible operations return `Except PyErr`;
* the state file is modelled at the parsed level: its content is either
  `empty` (an empty file, on which `json.loads` raises a `ValueError`) or a
  JSON object `record` mapping string keys to numbers; the file system is a
  function from paths to read results, so an unreadable file is the
  `ioError` case;
* obspy `Stats`/`Trace`/`Stream` are modelled by a small metadata structure,
  a trace (metadata plus data), and a list of traces; `stream.select`
  filters by channel code and indexing `[0]` raises `IndexError` on an
  empty selection.
-/

namespace Adjusted

/-- Python exceptions that the algorithm can raise. -/
inductive PyErr where
  | keyError (key : String)
  | valueError (msg : String)
  | indexError (msg : String)
  | typeError (msg : String)
  deriving DecidableEq, Repr

/-- Channel metadata (obspy `Stats`).  `channel` is the channel code;
`data_type` and `location` are the two attributes the algorithm rewrites
(`None` is `Option.none`); `station` stands for the rest of the cloned
metadata. -/
structure Stats where
  channel : String
  station : String
  data_type : Option String
  location : Option String
  deriving DecidableEq, Repr, Inhabited

/-- A trace: metadata plus a sample array. -/
structure Trace where
  stats : Stats
  data : List ℚ
  deriving DecidableEq, Repr, Inhabited

/-- `stream.select(channel=c)`: all traces whose channel code is `c`. -/
def select (stream : List Trace) (c : String) : List Trace :=
  stream.filter (fun t => t.stats.channel = c)

/-- `stream.select(channel=c)[0]`: first matching trace, `IndexError` if
the selection is empty. -/
def select0 (stream : List Trace) (c : String) : Except PyErr Trace :=
  match select stream c with
  | [] => .error (.indexError "list index out of range")
  | t :: _ => .ok t

/-- `l[i]` on a Python list: `IndexError` when out of range. -/
def listIndex {α : Type} (l : List α) (i : Nat) : Except PyErr α :=
  match l[i]? with
  | none => .error (.indexError "list index out of range")
  | some x => .ok x

/-- Unwrap an optional field; Python raises a `TypeError` when an operation
is applied to `None`. -/
def pyVal {α : Type} (o : Option α) : Except PyErr α :=
  match o with
  | none => .error (.typeError "unsupported operand type NoneType")
  | some x => .ok x

/-- `np.eye n` as a row-major rational matrix. -/
def eye (n : Nat) : List (List ℚ) :=
  (List.range n).map (fun i => (List.range n).map (fun j => if i = j then 1 else 0))

/-- Matrix cell read `m[i, j]` (total, with default `0`; used where the
source indexes in range). -/
def cell (m : List (List ℚ)) (i j : Nat) : ℚ :=
  (m.getD i []).getD j 0

/-- Matrix cell write `m[i, j] = v`. -/
def setCell (m : List (List ℚ)) (i j : Nat) (v : ℚ) : List (List ℚ) :=
  m.set i ((m.getD i []).set j v)

/-- `np.vstack`: stacks rows, `ValueError` when the rows are ragged or
there are no rows. -/
def npVstack (rows : List (List ℚ)) : Except PyErr (List (List ℚ)) :=
  match rows with
  | [] => .error (.valueError "need at least one array to concatenate")
  | r :: rs =>
    if rs.all (fun x => x.length = r.length) then .ok (r :: rs)
    else .error (.valueError "all the input array dimensions must match")

/-- `np.matmul A B` (2-d): entry `(i, t)` is `Σ k, A[i,k] * B[k,t]`;
`ValueError` when the inner dimensions disagree. -/
def npMatmul (A B : List (List ℚ)) : Except PyErr (List (List ℚ)) :=
  if A.all (fun r => r.length = B.length) then
    .ok ((List.range A.length).map (fun i =>
      (List.range (B.headD []).length).map (fun t =>
        ((List.range B.length).map (fun k => cell A i k * cell B k t)).sum)))
  else .error (.valueError "matmul: input operand mismatch")

/-- Python string `<` (lexicographic on code points), on char lists. -/
def pyListLt : List Char → List Char → Bool
  | _, [] => false
  | [], _ :: _ => true
  | a :: as, b :: bs =>
    if a.toNat < b.toNat then true
    else if b.toNat < a.toNat then false
    else pyListLt as bs

/-- Python string `<`. -/
def pyStrLt (a b : String) : Bool :=
  pyListLt a.toList b.toList

/-- Python `max` over a nonempty list of strings (keeps the first of equal
maxima, replaces the candidate when a later item is strictly greater). -/
def pyMax (x : String) (xs : List String) : String :=
  xs.foldl (fun acc k => if pyStrLt acc k then k else acc) x

/-- Python `int(c)` on a one-character string: its digit value, or a
`ValueError` for a non-digit. -/
def pyIntOfChar (c : Char) : Option Nat :=
  if 48 ≤ c.toNat ∧ c.toNat ≤ 57 then some (c.toNat - 48) else none

/-- The state-file cell key `"M" + str(i + 1) + str(j + 1)`. -/
def mkey (i j : Nat) : String :=
  "M" ++ Nat.repr (i + 1) ++ Nat.repr (j + 1)

/-- Row-major list of cell coordinates `(i, j)` for `i, j < n`, in the
iteration order of the two nested `for` loops. -/
def cellPairs (n : Nat) : List (Nat × Nat) :=
  (List.range n).flatMap (fun i => (List.range n).map (fun j => (i, j)))

/-- The nested fill loop of `load_state`: overwrite each listed cell from
the record; a missing key stops the loop with that key (Python's
`KeyError`), leaving the partially overwritten matrix. -/
def fillGo (entries : List (String × ℚ)) :
    List (Nat × Nat) → List (List ℚ) → List (List ℚ) × Option String
  | [], m => (m, none)
  | p :: rest, m =>
    match entries.lookup (mkey p.1 p.2) with
    | none => (m, some (mkey p.1 p.2))
    | some v => fillGo entries rest (setCell m p.1 p.2 v)

/-- Parsed content of a state file: empty (the raw file has no bytes, so
`json.loads` raises `ValueError`), or a flat JSON object with numeric
values.  Other JSON documents (null, strings, …) do not occur in the
behaviours under study. -/
inductive FileContent where
  | empty
  | record (entries : List (String × ℚ))
  deriving DecidableEq

/-- Result of `open(path).read()`: an `IOError` or the file's content. -/
inductive ReadResult where
  | ioError (msg : String)
  | content (c : FileContent)

/-- Outcome of `load_state`: the in-memory matrix and pier correction at
return (or at raise) time, diagnostics written to stderr, and the raised
exception, if any. -/
structure LoadResult where
  matrix : List (List ℚ)
  pier_correction : ℚ
  diagnostics : List String
  err : Option PyErr
  deriving DecidableEq

/-- `length = int(max(keys)[-1])`: the dimension inferred from the cell
keys — the digit value of the last character of the lexicographically
greatest key.  `ValueError` on an empty key list (Python `max([])`) or a
non-digit last character (`int`); `IndexError` on an empty greatest key
(`""[-1]`). -/
def inferLength (keys : List String) : Except PyErr Nat :=
  match keys with
  | [] => .error (.valueError "max() arg is an empty sequence")
  | k :: ks =>
    match (pyMax k ks).toList.getLast? with
    | none => .error (.indexError "string index out of range")
    | some c =>
      match pyIntOfChar c with
      | none => .error (.valueError "invalid literal for int")
      | some n => .ok n

/-- The part of `load_state` that consumes a parsed non-empty record:
pop `"PC"` (`KeyError` if absent), infer the dimension from the remaining
keys, allocate a fresh identity of that size and overwrite every cell from
the record, raising `KeyError` on a missing cell key.  `m0` is the
identity the method installed on entry. -/
def load_parse (m0 : List (List ℚ)) (entries : List (String × ℚ)) : LoadResult :=
  match entries.lookup "PC" with
  | none => ⟨m0, 0, [], some (.keyError "PC")⟩
  | some pc =>
    let rest := entries.filter (fun kv => kv.1 ≠ "PC")
    match inferLength (rest.map (fun kv => kv.1)) with
    | .error e => ⟨m0, pc, [], some e⟩
    | .ok n =>
      let filled := fillGo rest (cellPairs n) (eye n)
      match filled.2 with
      | some key => ⟨filled.1, pc, [], some (.keyError key)⟩
      | none => ⟨filled.1, pc, [], none⟩

/-- `AdjustedAlgorithm.load_state`, reading through a file system `fs`.
Follows the source line by line: reset the matrix to the identity sized to
the input channels and the correction to `0`; return on an unset state
file; read and JSON-parse the file, catching only `IOError` (an empty file
makes `json.loads` raise `ValueError`, which is not caught); then process
the record through `load_parse`. -/
def load_state (inchannels : List String) (statefile : Option String)
    (fs : String → ReadResult) : LoadResult :=
  let m0 := eye inchannels.length
  match statefile with
  | none => ⟨m0, 0, [], none⟩
  | some path =>
    match fs path with
    | .ioError msg => ⟨m0, 0, ["I/O error " ++ msg], none⟩
    | .content .empty => ⟨m0, 0, [], some (.valueError "Expecting value")⟩
    | .content (.record entries) => load_parse m0 entries

/-- The record `save_state` writes for a matrix and correction: key `"PC"`
first, then one `"M<i+1><j+1>"` key per cell, row-major, where the
dimension is `len(matrix[0, :])`, the length of the first row. -/
def save_record (m : List (List ℚ)) (pc : ℚ) : List (String × ℚ) :=
  ("PC", pc) ::
    (cellPairs (m.headD []).length).map (fun p => (mkey p.1 p.2, cell m p.1 p.2))

/-- `AdjustedAlgorithm.save_state`: `none` when the state file is unset
(no write happens), otherwise the record written to it. -/
def save_state (statefile : Option String) (m : List (List ℚ)) (pc : ℚ) :
    Option (List (String × ℚ)) :=
  match statefile with
  | none => none
  | some _ => some (save_record m pc)

/-- The transformer instance: the fields set by `__init__`.  `matrix` and
`pier_correction` are `Option`s because Python leaves them `None` when not
supplied and not loaded. -/
structure AdjAlgo where
  matrix : Option (List (List ℚ))
  pier_correction : Option ℚ
  statefile : Option String
  data_type : Option String
  location : Option String
  inchannels : List String
  outchannels : List String
  deriving DecidableEq, Repr

/-- Python `x or default` on an optional channel list: the default is used
both for `None` and for an (falsy) empty list. -/
def pyOrDefault (l : Option (List String)) (d : List String) : List String :=
  match l with
  | none => d
  | some [] => d
  | some (c :: cs) => c :: cs

/-- Apply a `load_state` result to the instance fields (the in-place
assignments to `self.matrix` and `self.pier_correction`). -/
def applyLoad (a : AdjAlgo) (r : LoadResult) : AdjAlgo :=
  { a with matrix := some r.matrix, pier_correction := some r.pier_correction }

/-- `load_state` as the method acts on an instance: mutates the matrix and
correction fields and returns the diagnostics and the raised exception,
if any. -/
def load_state_on (a : AdjAlgo) (fs : String → ReadResult) :
    AdjAlgo × List String × Option PyErr :=
  let r := load_state a.inchannels a.statefile fs
  (applyLoad a r, r.diagnostics, r.err)

/-- `AdjustedAlgorithm.__init__`: store all arguments (channel lists
defaulted through Python `or`), then call `load_state` exactly when no
matrix was supplied. -/
def initAlgo (matrix : Option (List (List ℚ))) (pier_correction : Option ℚ)
    (statefile data_type location : Option String)
    (inchannels outchannels : Option (List String))
    (fs : String → ReadResult) : AdjAlgo × List String × Option PyErr :=
  let a : AdjAlgo :=
    { matrix := matrix, pier_correction := pier_correction,
      statefile := statefile, data_type := data_type, location := location,
      inchannels := pyOrDefault inchannels ["H", "E", "Z", "F"],
      outchannels := pyOrDefault outchannels ["X", "Y", "Z", "F"] }
  match matrix with
  | none => load_state_on a fs
  | some _ => (a, [], none)

/-- The base `Algorithm.create_trace`.  Modelled from the spec: it is not
part of this repository's sources; per §4.2 and §6 it clones the given
metadata, sets the channel code, and attaches the data. -/
def base_create_trace (channel : String) (stats : Stats) (data : List ℚ) :
    Trace :=
  { stats := { stats with channel := channel }, data := data }

/-- `AdjustedAlgorithm.create_trace`: clone the stats, then set
`data_type` (the configured override, or `"adjusted"` when none is
configured) and `location` — the source gates BOTH assignments on
`self.data_type is None`, so `location` becomes `"A0"` exactly when no
data-type override is configured, and `self.location` (possibly `None`)
otherwise. -/
def create_trace (a : AdjAlgo) (channel : String) (stats : Stats)
    (data : List ℚ) : Trace :=
  let s1 :=
    if a.data_type = none then { stats with data_type := some "adjusted" }
    else { stats with data_type := a.data_type }
  let s2 :=
    if a.data_type = none then { s1 with location := some "A0" }
    else { s1 with location := a.location }
  base_create_trace channel s2 data

/-- `AdjustedAlgorithm.process`: stack the non-F input channels plus a row
of ones, multiply by the matrix, emit one output trace per adjusted row
except the last, and, when `"F"` is among both channel lists, append an F
trace whose data is the input F data plus the pier correction. -/
def process (a : AdjAlgo) (stream : List Trace) : Except PyErr (List Trace) := do
  let inchannels := a.inchannels
  let outchannels := a.outchannels
  let datas ← (inchannels.filter (fun c => c ≠ "F")).mapM
    (fun c => do
      let t ← select0 stream c
      pure t.data)
  let first ← listIndex stream 0
  let raws ← npVstack (datas ++ [List.replicate first.data.length (1 : ℚ)])
  let matrix ← pyVal a.matrix
  let adjusted ← npMatmul matrix raws
  let outs ← (List.range (adjusted.length - 1)).mapM
    (fun i => do
      let oc ← listIndex outchannels i
      let ic ← listIndex inchannels i
      let tr ← select0 stream ic
      pure (create_trace a oc tr.stats (adjusted.getD i [])))
  if "F" ∈ inchannels ∧ "F" ∈ outchannels then do
    let f ← select0 stream "F"
    let pc ← pyVal a.pier_correction
    pure (outs ++ [create_trace a "F" f.stats (f.data.map (fun x => x + pc))])
  else
    pure outs

/-- `AdjustedAlgorithm.can_produce_data`.  The base class check ("full
coverage" of a selected sub-stream over the requested time range) is an
external collaborator, passed as `cov`. -/
def can_produce_data (a : AdjAlgo) (cov : ℤ → ℤ → List Trace → Bool)
    (starttime endtime : ℤ) (stream : List Trace) : Bool :=
  let channels := a.inchannels
  if "F" ∈ channels ∧ cov starttime endtime (select stream "F") then
    true
  else if ("H" ∈ channels ∧ "E" ∈ channels ∧ "Z" ∈ channels) ∧
      (["H", "E", "Z"].all (fun c => cov starttime endtime (select stream c))) then
    true
  else if channels.all (fun c => cov starttime endtime (select stream c)) then
    true
  else
    false

/-- Modelled from the spec (§4.3): tier 1 — `"F"` among inputs and the F
channel alone fully covered. -/
def specTier1 (inputs : List String) (cov : ℤ → ℤ → List Trace → Bool)
    (starttime endtime : ℤ) (stream : List Trace) : Bool :=
  "F" ∈ inputs ∧ cov starttime endtime (select stream "F")

/-- Modelled from the spec (§4.3): tier 2 — `"H"`, `"E"`, `"Z"` all among
inputs and each independently fully covered. -/
def specTier2 (inputs : List String) (cov : ℤ → ℤ → List Trace → Bool)
    (starttime endtime : ℤ) (stream : List Trace) : Bool :=
  ("H" ∈ inputs ∧ "E" ∈ inputs ∧ "Z" ∈ inputs) ∧
    (["H", "E", "Z"].all (fun c => cov starttime endtime (select stream c)))

/-- Modelled from the spec (§4.3): tier 3 — every input channel fully
covered. -/
def specTier3 (inputs : List String) (cov : ℤ → ℤ → List Trace → Bool)
    (starttime endtime : ℤ) (stream : List Trace) : Bool :=
  inputs.all (fun c => cov starttime endtime (select stream c))

/-- Modelled from the spec (§4.3): the tiered decision — true exactly when
some tier, taken in order, is satisfied; false when none is. -/
def specCanProduce (inputs : List String) (cov : ℤ → ℤ → List Trace → Bool)
    (starttime endtime : ℤ) (stream : List Trace) : Bool :=
  if specTier1 inputs cov starttime endtime stream then true
  else if specTier2 inputs cov starttime endtime stream then true
  else if specTier3 inputs cov starttime endtime stream then true
  else false

/-- Decidable equality for `Except`, used to evaluate concrete runs. -/
instance {e a : Type} [DecidableEq e] [DecidableEq a] : DecidableEq (Except e a) := fun x y =>
  match x, y with
  | .error u, .error v =>
    if h : u = v then .isTrue (by rw [h])
    else .isFalse (by intro hh; injection hh; contradiction)
  | .error _, .ok _ => .isFalse (by intro hh; exact Except.noConfusion hh)
  | .ok _, .error _ => .isFalse (by intro hh; exact Except.noConfusion hh)
  | .ok u, .ok v =>
    if h : u = v then .isTrue (by rw [h])
    else .isFalse (by intro hh; injection hh; contradiction)

/-! ### Concrete instances used by witnesses and counterexamples -/

/-- A transformer configured with `"F"` among the inputs but not among the
outputs (the output list was overridden to drop F). -/
def algoC7 : AdjAlgo :=
  ⟨some (eye 4), some 0, none, none, none,
    ["H", "E", "Z", "F"], ["X", "Y", "Z"]⟩

/-- A batch carrying H, E and Z but no F channel. -/
def streamC7 : List Trace :=
  [⟨⟨"H", "BOU", none, none⟩, [1]⟩,
   ⟨⟨"E", "BOU", none, none⟩, [2]⟩,
   ⟨⟨"Z", "BOU", none, none⟩, [3]⟩]

/-- A transformer with a location-tag override configured but no
data-type override. -/
def algoC8 : AdjAlgo :=
  ⟨some (eye 4), some 0, none, none, some "R0",
    ["H", "E", "Z", "F"], ["X", "Y", "Z", "F"]⟩

/-- A default trace (only a `getD` fallback in theorem statements). -/
def emptyTrace : Trace := ⟨⟨"", "", none, none⟩, []⟩

/-- The first trace selected for a channel (total; meaningful when the
selection is nonempty). -/
def selTrace (stream : List Trace) (c : String) : Trace :=
  (select stream c).headD emptyTrace

/-- The data of the first trace selected for a channel. -/
def selData (stream : List Trace) (c : String) : List ℚ :=
  (selTrace stream c).data

/-- Shape of an n-by-n row-major matrix. -/
def Shape (M : List (List ℚ)) (n : Nat) : Prop :=
  M.length = n ∧ ∀ r ∈ M, r.length = n

end Adjusted

namespace Adjusted

/-! ### General lemmas about the embedded operations -/

/-- String concatenation concatenates the underlying character lists. -/
theorem data_append (s t : String) : (s ++ t).data = s.data ++ t.data := rfl

/-- A cell key always begins with `'M'`, so it is never `"PC"`. -/
theorem mkey_ne_PC (i j : Nat) : mkey i j ≠ "PC" := by
  intro h
  have h2 := congrArg String.data h
  have h3 : (mkey i j).data = 'M' :: ((Nat.repr (i+1)).data ++ (Nat.repr (j+1)).data) := by
    show ("M" ++ Nat.repr (i+1) ++ Nat.repr (j+1)).data = _
    rw [data_append, data_append]
    rfl
  rw [h3] at h2
  simp at h2

/-- If some listed cell has no key in the record, the fill loop raises a
`KeyError` on some listed cell key. -/
theorem fillGo_err (entries : List (String × ℚ)) (pairs : List (Nat × Nat)) :
    ∀ (m : List (List ℚ)) (p : Nat × Nat), p ∈ pairs →
      entries.lookup (mkey p.1 p.2) = none →
      ∃ q, q ∈ pairs ∧ (fillGo entries pairs m).2 = some (mkey q.1 q.2) := by
  induction pairs with
  | nil => intro m p hp; simp at hp
  | cons q rest ih =>
    intro m p hp hmiss
    unfold fillGo
    cases hq : entries.lookup (mkey q.1 q.2) with
    | none => exact ⟨q, List.mem_cons_self q rest, rfl⟩
    | some v =>
      have hpq : p ≠ q := by
        intro h
        rw [h] at hmiss
        rw [hmiss] at hq
        exact Option.noConfusion hq
      have hp' : p ∈ rest := by
        cases List.mem_cons.mp hp with
        | inl h => exact absurd h hpq
        | inr h => exact h
      obtain ⟨r, hr, hfill⟩ := ih (setCell m q.1 q.2 v) p hp' hmiss
      exact ⟨r, List.mem_cons_of_mem q hr, hfill⟩

/-- Any key the fill loop raises on is one of the listed cell keys. -/
theorem fillGo_err_shape (entries : List (String × ℚ)) (pairs : List (Nat × Nat)) :
    ∀ (m : List (List ℚ)) (k : String), (fillGo entries pairs m).2 = some k →
      ∃ q, q ∈ pairs ∧ k = mkey q.1 q.2 := by
  induction pairs with
  | nil => intro m k h; simp [fillGo] at h
  | cons q rest ih =>
    intro m k h
    unfold fillGo at h
    cases hq : entries.lookup (mkey q.1 q.2) with
    | none =>
      rw [hq] at h
      simp at h
      exact ⟨q, List.mem_cons_self q rest, h.symm⟩
    | some v =>
      rw [hq] at h
      obtain ⟨r, hr, hk⟩ := ih (setCell m q.1 q.2 v) k h
      exact ⟨r, List.mem_cons_of_mem q hr, hk⟩

/-- Reading a parseable record reduces `load_state` to `load_parse`. -/
theorem load_state_record (inch : List String) (path : String)
    (fs : String → ReadResult) (entries : List (String × ℚ))
    (hfs : fs path = .content (.record entries)) :
    load_state inch (some path) fs = load_parse (eye inch.length) entries := by
  simp only [load_state, hfs]

/-- `Except.bind` on an error short-circuits. -/
theorem bindE_error {α β : Type} (e : PyErr) (k : α → Except PyErr β) :
    (Except.error e >>= k) = Except.error e := rfl

theorem bindE_ok {α β : Type} (x : α) (k : α → Except PyErr β) :
    (Except.ok x >>= k) = k x := rfl

theorem pureE {α : Type} (x : α) : (pure x : Except PyErr α) = Except.ok x := rfl

/-- If some element of the list makes `f` fail, `mapM f` fails. -/
theorem mapM_error{α β : Type} (f : α → Except PyErr β) (l : List α) (x : α)
    (hx : x ∈ l) (e : PyErr) (hf : f x = .error e) :
    ∃ e2, l.mapM f = .error e2 := by
  induction l with
  | nil => simp at hx
  | cons y ys ih =>
    rw [List.mapM_cons]
    cases hy : f y with
    | error ey => exact ⟨ey, rfl⟩
    | ok b =>
      have hx' : x ∈ ys := by
        cases List.mem_cons.mp hx with
        | inl h => exfalso; rw [h, hy] at hf; exact Except.noConfusion hf
        | inr h => exact h
      obtain ⟨e2, he2⟩ := ih hx'
      exact ⟨e2, by rw [bindE_ok, he2]; rfl⟩

/-- If `f` succeeds on every element, `mapM f` collects the results. -/
theorem mapM_ok{α β : Type} (f : α → Except PyErr β) (g : α → β) (l : List α)
    (h : ∀ y ∈ l, f y = .ok (g y)) : l.mapM f = .ok (l.map g) := by
  induction l with
  | nil => rfl
  | cons y ys ih =>
    rw [List.mapM_cons, h y (List.mem_cons_self y ys), bindE_ok,
      ih (fun z hz => h z (List.mem_cons_of_mem y hz)), bindE_ok]
    rfl

/-- An unreadable state file is caught: diagnostics are written and the
reset defaults are returned with no exception. -/
theorem load_state_ioError (inch : List String) (path msg : String)
    (fs : String → ReadResult) (hfs : fs path = .ioError msg) :
    load_state inch (some path) fs =
      ⟨eye inch.length, 0, ["I/O error " ++ msg], none⟩ := by
  unfold load_state
  dsimp only
  rw [hfs]

/-- The dimension-inference step never raises a `KeyError`. -/
theorem inferLength_no_keyError (keys : List String) (k : String) :
    inferLength keys ≠ .error (.keyError k) := by
  unfold inferLength
  split
  · simp
  · split
    · simp
    · split
      · simp
      · simp

/-- The only way `load_parse` raises `KeyError "PC"` is the failed pop of
`"PC"`, which happens before any assignment, so the result is exactly the
reset state. -/
theorem load_parse_PC_err (m0 : List (List ℚ)) (entries : List (String × ℚ))
    (h : (load_parse m0 entries).err = some (.keyError "PC")) :
    load_parse m0 entries = ⟨m0, 0, [], some (.keyError "PC")⟩ := by
  cases hpc : entries.lookup "PC" with
  | none => simp only [load_parse, hpc]
  | some pc =>
    exfalso
    cases hlen : inferLength ((entries.filter (fun kv => kv.1 ≠ "PC")).map (fun kv => kv.1)) with
    | error e =>
      simp only [load_parse, hpc, hlen] at h
      simp only [Option.some.injEq] at h
      exact inferLength_no_keyError _ "PC" (by rw [hlen, h])
    | ok n =>
      simp only [load_parse, hpc, hlen] at h
      cases hk : (fillGo (entries.filter (fun kv => kv.1 ≠ "PC")) (cellPairs n) (eye n)).2 with
      | none => rw [hk] at h; simp at h
      | some key =>
        rw [hk] at h
        simp only [Option.some.injEq] at h
        obtain ⟨q, hq, hkey⟩ :=
          fillGo_err_shape (entries.filter (fun kv => kv.1 ≠ "PC")) (cellPairs n) (eye n) key hk
        rw [hkey] at h
        exact mkey_ne_PC q.1 q.2 (PyErr.keyError.inj h)

/-- When `load_state` raises `KeyError "PC"`, the in-memory state is the
freshly reset identity and zero correction. -/
theorem load_state_PC_err (inch : List String) (sf : Option String)
    (fs : String → ReadResult)
    (h : (load_state inch sf fs).err = some (.keyError "PC")) :
    (load_state inch sf fs).matrix = eye inch.length ∧
      (load_state inch sf fs).pier_correction = 0 := by
  cases sf with
  | none => simp [load_state] at h
  | some path =>
    cases hr : fs path with
    | ioError msg => rw [load_state, hr] at h ⊢; simp at h
    | content c =>
      cases c with
      | empty => rw [load_state, hr] at h ⊢; simp at h
      | record entries =>
        rw [load_state_record inch path fs entries hr] at h ⊢
        rw [load_parse_PC_err (eye inch.length) entries h]
        exact ⟨rfl, rfl⟩

theorem select0_ok (stream : List Trace) (c : String) (h : select stream c ≠ []) :
    select0 stream c = .ok (selTrace stream c) := by
  unfold select0 selTrace
  cases hs : select stream c with
  | nil => exact absurd hs h
  | cons t ts => rfl

theorem selTrace_mem (stream : List Trace) (c : String) (h : select stream c ≠ []) :
    selTrace stream c ∈ stream := by
  unfold selTrace
  cases hs : select stream c with
  | nil => exact absurd hs h
  | cons t ts =>
    have ht : t ∈ select stream c := by rw [hs]; exact List.mem_cons_self t ts
    exact List.mem_of_mem_filter ht

theorem eye_length (n : Nat) : (eye n).length = n := by
  simp [eye]

theorem eye_mem_length (n : Nat) (r : List ℚ) (hr : r ∈ eye n) : r.length = n := by
  unfold eye at hr
  obtain ⟨i, hi, rfl⟩ := List.mem_map.mp hr
  simp

theorem eye_getD (n i : Nat) (hi : i < n) :
    (eye n).getD i [] = (List.range n).map (fun j => if i = j then (1:ℚ) else 0) := by
  unfold eye
  rw [List.getD_eq_getElem _ _ (by simpa using hi), List.getElem_map, List.getElem_range]

theorem cell_eye (n i k : Nat) (hi : i < n) (hk : k < n) :
    cell (eye n) i k = if i = k then 1 else 0 := by
  unfold cell
  rw [eye_getD n i hi]
  rw [List.getD_eq_getElem _ _ (by simpa using hk), List.getElem_map, List.getElem_range]

theorem sum_range_ite (g : Nat → ℚ) :
    ∀ (n i : Nat), i < n →
      ((List.range n).map (fun k => (if i = k then (1:ℚ) else 0) * g k)).sum = g i := by
  intro n
  induction n with
  | zero => intro i hi; omega
  | succ m ih =>
    intro i hi
    rw [List.range_succ, List.map_append, List.sum_append]
    by_cases h : i = m
    · subst h
      have hz : ((List.range i).map (fun k => (if i = k then (1:ℚ) else 0) * g k)).sum = 0 := by
        apply List.sum_eq_zero
        intro x hx
        obtain ⟨k, hk, rfl⟩ := List.mem_map.mp hx
        have hik : i ≠ k := by
          have := List.mem_range.mp hk
          omega
        simp [hik]
      rw [hz]
      simp
    · have hi2 : i < m := by omega
      rw [ih i hi2]
      simp [h]

theorem range_map_getD {α : Type} (l : List α) (d : α) :
    (List.range l.length).map (fun t => l.getD t d) = l := by
  apply List.ext_getElem
  · simp
  · intro i h1 h2
    simp only [List.getElem_map, List.getElem_range]
    rw [List.getD_eq_getElem l d (by simpa using h2)]

theorem npMatmul_eye (B : List (List ℚ)) (n T : Nat) (hB : B.length = n)
    (hrow : ∀ r ∈ B, r.length = T) : npMatmul (eye n) B = .ok B := by
  unfold npMatmul
  have hcond : ((eye n).all (fun r => decide (r.length = B.length))) = true := by
    rw [List.all_eq_true]
    intro r hr
    simp [eye_mem_length n r hr, hB]
  rw [if_pos hcond]
  congr 1
  rw [eye_length]
  have hpoint : ∀ i ∈ List.range n,
      (List.range (B.headD []).length).map (fun t =>
        ((List.range B.length).map (fun k => cell (eye n) i k * cell B k t)).sum) =
      B.getD i [] := by
    intro i hi
    have hi2 : i < n := List.mem_range.mp hi
    have hBne : B ≠ [] := by
      intro hnil
      rw [hnil] at hB
      simp at hB
      omega
    have hT : (B.headD []).length = T := by
      cases hBc : B with
      | nil => exact absurd hBc hBne
      | cons r rs =>
        have : r ∈ B := by rw [hBc]; exact List.mem_cons_self r rs
        simpa [hBc] using hrow r this
    have hrowi : B.getD i [] ∈ B := by
      rw [List.getD_eq_getElem B [] (by omega)]
      exact List.getElem_mem (by omega)
    have hrowlen : (B.getD i []).length = T := hrow _ hrowi
    have hentry : ∀ t ∈ List.range (B.headD []).length,
        ((List.range B.length).map (fun k => cell (eye n) i k * cell B k t)).sum =
          (B.getD i []).getD t 0 := by
      intro t ht
      rw [hB]
      have hcells : ∀ k ∈ List.range n,
          cell (eye n) i k * cell B k t = (if i = k then (1:ℚ) else 0) * cell B k t := by
        intro k hk
        rw [cell_eye n i k hi2 (List.mem_range.mp hk)]
      rw [List.map_congr_left hcells]
      exact sum_range_ite (fun k => cell B k t) n i hi2
    rw [List.map_congr_left hentry, hT, ← hrowlen]
    exact range_map_getD (B.getD i []) 0
  rw [List.map_congr_left hpoint]
  have hfin := range_map_getD B ([] : List ℚ)
  rw [hB] at hfin
  exact hfin

theorem pyVal_some {α : Type} (x : α) : pyVal (some x) = .ok x := rfl

theorem create_trace_data (a : AdjAlgo) (ch : String) (st : Stats) (d : List ℚ) :
    (create_trace a ch st d).data = d := rfl

theorem npVstack_ok (rows : List (List ℚ)) (T : Nat) (hne : rows ≠ [])
    (h : ∀ r ∈ rows, r.length = T) : npVstack rows = .ok rows := by
  cases rows with
  | nil => exact absurd rfl hne
  | cons r rs =>
    unfold npVstack
    dsimp only
    rw [if_pos]
    rw [List.all_eq_true]
    intro x hx
    have hx2 : x.length = T := h x (List.mem_cons_of_mem r hx)
    have hr2 : r.length = T := h r (List.mem_cons_self r rs)
    rw [hx2, hr2]
    simp

theorem listIndex_lt {α : Type} (l : List α) (i : Nat) (d : α) (h : i < l.length) :
    listIndex l i = .ok (l.getD i d) := by
  unfold listIndex
  rw [List.getElem?_eq_getElem h, List.getD_eq_getElem l d h]

end Adjusted

namespace Adjusted

/-! ### Claim theorems -/

/-- Claim C3: for every time range, every stream of available channels and
every configured input-channel list, `can_produce_data` returns true
exactly when the ordered tiered decision of the spec (tier 1: F among
inputs and F alone fully covered; tier 2: H, E, Z among inputs and each
fully covered; tier 3: every input fully covered) accepts, and false when
no tier is satisfied. -/
theorem claim3_availability_tiers (a : AdjAlgo) (cov : ℤ → ℤ → List Trace → Bool)
    (starttime endtime : ℤ) (stream : List Trace) :
    can_produce_data a cov starttime endtime stream =
      specCanProduce a.inchannels cov starttime endtime stream := by
  unfold can_produce_data specCanProduce specTier1 specTier2 specTier3
  split_ifs <;> simp_all

/-- Claim C4 (code bug): on a state file that exists, is readable and is
empty, `json.loads` raises an uncaught `ValueError` — the claim (and the
source's own dead `data == ""` check) expect defaults to be returned
without raising. -/
theorem claim4_empty_state_file_raises :
    load_state ["H", "E", "Z", "F"] (some "adj_state.json")
        (fun _ => .content .empty) =
      ⟨eye 4, 0, [], some (.valueError "Expecting value")⟩ := by
  decide

/-- Claim C5: when the state file cannot be read, the `IOError` is caught,
a diagnostic is written to stderr, no exception reaches the caller, and
the default identity matrix (sized to the input channels) and zero
correction are returned. -/
theorem claim5_load_failure_fallback (inch : List String) (path msg : String)
    (fs : String → ReadResult) (hfs : fs path = .ioError msg) :
    load_state inch (some path) fs =
      ⟨eye inch.length, 0, ["I/O error " ++ msg], none⟩ :=
  load_state_ioError inch path msg fs hfs

/-- Witness for C5 at a concrete unreadable file. -/
theorem claim5_witness :
    load_state ["H", "E", "Z", "F"] (some "adj_state.json")
        (fun _ => .ioError "No such file") =
      ⟨eye 4, 0, ["I/O error No such file"], none⟩ :=
  claim5_load_failure_fallback ["H", "E", "Z", "F"] "adj_state.json"
    "No such file" (fun _ => .ioError "No such file") rfl

/-- Claim C6: when the state file parses into a non-empty record whose
`"PC"` pop succeeds and whose inferred dimension is `n`, but a cell key
`M<i+1><j+1>` with `i, j < n` is missing, `load_state` raises a lookup
error (`KeyError` on a cell key) to its caller. -/
theorem claim6_missing_cell_key (inch : List String) (path : String)
    (fs : String → ReadResult) (entries : List (String × ℚ)) (pc : ℚ)
    (n i j : Nat)
    (hfs : fs path = .content (.record entries))
    (hpc : entries.lookup "PC" = some pc)
    (hlen : inferLength ((entries.filter (fun kv => kv.1 ≠ "PC")).map (fun kv => kv.1)) = .ok n)
    (hij : (i, j) ∈ cellPairs n)
    (hmiss : (entries.filter (fun kv => kv.1 ≠ "PC")).lookup (mkey i j) = none) :
    ∃ key, (load_state inch (some path) fs).err = some (.keyError key) := by
  rw [load_state_record inch path fs entries hfs]
  obtain ⟨q, hq, hfill⟩ :=
    fillGo_err (entries.filter (fun kv => kv.1 ≠ "PC")) (cellPairs n) (eye n) (i, j) hij hmiss
  refine ⟨mkey q.1 q.2, ?_⟩
  simp only [load_parse, hpc, hlen, hfill]

/-- Witness for C6: record `PC, M11, M22` infers dimension 2 but lacks
`M12`. -/
theorem claim6_witness :
    ∃ key,
      (load_state ["H", "E", "Z", "F"] (some "adj_state.json")
          (fun _ => .content (.record [("PC", 1), ("M11", 2), ("M22", 4)]))).err =
        some (.keyError key) :=
  claim6_missing_cell_key ["H", "E", "Z", "F"] "adj_state.json"
    (fun _ => .content (.record [("PC", 1), ("M11", 2), ("M22", 4)]))
    [("PC", 1), ("M11", 2), ("M22", 4)] 1 2 0 1 rfl (by decide) rfl
    (by decide) (by decide)

/-- Claim C10: `load_state` first discards the previous calibration — its
result does not depend on the pre-call matrix or correction at all — and
when it raises `KeyError "PC"` the instance holds the freshly reset
identity (sized to the input channels) and zero correction, never the
pre-call calibration. -/
theorem claim10_load_resets_state (a b : AdjAlgo) (fs : String → ReadResult)
    (hin : a.inchannels = b.inchannels) (hsf : a.statefile = b.statefile) :
    ((load_state_on a fs).1.matrix = (load_state_on b fs).1.matrix ∧
      (load_state_on a fs).1.pier_correction = (load_state_on b fs).1.pier_correction ∧
      (load_state_on a fs).2 = (load_state_on b fs).2) ∧
    ((load_state_on a fs).2.2 = some (.keyError "PC") →
      (load_state_on a fs).1.matrix = some (eye a.inchannels.length) ∧
      (load_state_on a fs).1.pier_correction = some 0) := by
  constructor
  · simp only [load_state_on, applyLoad, hin, hsf]
    exact ⟨trivial, trivial, trivial⟩
  · intro h
    have h' : (load_state a.inchannels a.statefile fs).err = some (.keyError "PC") := h
    obtain ⟨hm, hp⟩ := load_state_PC_err a.inchannels a.statefile fs h'
    constructor
    · show some (load_state a.inchannels a.statefile fs).matrix = _
      rw [hm]
    · show some (load_state a.inchannels a.statefile fs).pier_correction = _
      rw [hp]

/-- Witness for C10: two instances with different pre-call calibrations,
loading a record that lacks `"PC"`. -/
theorem claim10_witness :
    ((load_state_on
          ⟨some [[2]], some 7, some "st.json", none, none,
            ["H", "E", "Z", "F"], ["X", "Y", "Z", "F"]⟩
          (fun _ => .content (.record [("M11", 3)]))).1.matrix =
        (load_state_on
          ⟨none, none, some "st.json", none, none,
            ["H", "E", "Z", "F"], ["X", "Y", "Z", "F"]⟩
          (fun _ => .content (.record [("M11", 3)]))).1.matrix ∧
      (load_state_on
          ⟨some [[2]], some 7, some "st.json", none, none,
            ["H", "E", "Z", "F"], ["X", "Y", "Z", "F"]⟩
          (fun _ => .content (.record [("M11", 3)]))).1.pier_correction =
        (load_state_on
          ⟨none, none, some "st.json", none, none,
            ["H", "E", "Z", "F"], ["X", "Y", "Z", "F"]⟩
          (fun _ => .content (.record [("M11", 3)]))).1.pier_correction ∧
      (load_state_on
          ⟨some [[2]], some 7, some "st.json", none, none,
            ["H", "E", "Z", "F"], ["X", "Y", "Z", "F"]⟩
          (fun _ => .content (.record [("M11", 3)]))).2 =
        (load_state_on
          ⟨none, none, some "st.json", none, none,
            ["H", "E", "Z", "F"], ["X", "Y", "Z", "F"]⟩
          (fun _ => .content (.record [("M11", 3)]))).2) ∧
    ((load_state_on
          ⟨some [[2]], some 7, some "st.json", none, none,
            ["H", "E", "Z", "F"], ["X", "Y", "Z", "F"]⟩
          (fun _ => .content (.record [("M11", 3)]))).2.2 =
        some (.keyError "PC") →
      (load_state_on
          ⟨some [[2]], some 7, some "st.json", none, none,
            ["H", "E", "Z", "F"], ["X", "Y", "Z", "F"]⟩
          (fun _ => .content (.record [("M11", 3)]))).1.matrix =
        some (eye 4) ∧
      (load_state_on
          ⟨some [[2]], some 7, some "st.json", none, none,
            ["H", "E", "Z", "F"], ["X", "Y", "Z", "F"]⟩
          (fun _ => .content (.record [("M11", 3)]))).1.pier_correction = some 0) :=
  claim10_load_resets_state
    ⟨some [[2]], some 7, some "st.json", none, none,
      ["H", "E", "Z", "F"], ["X", "Y", "Z", "F"]⟩
    ⟨none, none, some "st.json", none, none,
      ["H", "E", "Z", "F"], ["X", "Y", "Z", "F"]⟩
    (fun _ => .content (.record [("M11", 3)])) rfl rfl

end Adjusted

namespace Adjusted

/-- Claim C8 (code bug): with a location-tag override configured but no
data-type override, `create_trace` stamps the default location `"A0"`
instead of the configured override — the second `if` in the source tests
`self.data_type` where it means `self.location`. -/
theorem claim8_location_override_ignored :
    algoC8.location = some "R0" ∧ algoC8.data_type = none ∧
      (create_trace algoC8 "X" ⟨"H", "BOU", none, none⟩ [1]).stats =
        ⟨"X", "BOU", some "adjusted", some "A0"⟩ := by
  decide

/-- Claim C9 counterexample: constructing with an explicitly supplied
matrix and no pier correction leaves the correction `None`, not the
scalar 0. -/
theorem claim9_counterexample :
    (initAlgo (some (eye 4)) none none none none none none
        (fun _ => .ioError "unused")).1.pier_correction = none := by
  decide

/-- Claim C9 (amended): every creation that supplies neither a matrix nor
a pier correction runs `load_state`, and when the state file is unset or
unreadable the resulting pier correction is the scalar 0 and no exception
is raised; supplying a matrix without a correction instead leaves the
correction unset (see the counterexample). -/
theorem claim9_default_pier_correction (dt loc : Option String)
    (inch outch : Option (List String)) (sf : Option String)
    (fs : String → ReadResult)
    (h : sf = none ∨ ∃ p msg, sf = some p ∧ fs p = .ioError msg) :
    (initAlgo none none sf dt loc inch outch fs).1.pier_correction = some 0 ∧
      (initAlgo none none sf dt loc inch outch fs).2.2 = none := by
  rcases h with h | ⟨p, msg, hsf, hfs⟩
  · subst h
    exact ⟨rfl, rfl⟩
  · subst hsf
    simp only [initAlgo, load_state_on, applyLoad]
    rw [load_state_ioError _ p msg fs hfs]
    exact ⟨rfl, rfl⟩

/-- Witness for C9's amended statement at a concrete missing file. -/
theorem claim9_witness :
    (initAlgo none none (some "missing.json") none none none none
        (fun _ => .ioError "No such file")).1.pier_correction = some 0 ∧
      (initAlgo none none (some "missing.json") none none none none
        (fun _ => .ioError "No such file")).2.2 = none :=
  claim9_default_pier_correction none none none none (some "missing.json")
    (fun _ => .ioError "No such file")
    (Or.inr ⟨"missing.json", "No such file", rfl, rfl⟩)

/-- Claim C7 counterexample: a batch lacking the input channel `"F"`,
processed by a transformer whose output list omits F, succeeds (returns a
3-trace batch) instead of failing with a lookup/index error. -/
theorem claim7_counterexample :
    ("F" ∈ algoC7.inchannels ∧ select streamC7 "F" = []) ∧
      (process algoC7 streamC7).isOk = true := by
  decide

end Adjusted

namespace Adjusted

/-- Claim C7 (amended): a `process` call on a batch lacking an input
channel fails with an error that propagates to the caller (no output batch
is produced), provided the missing channel is not `"F"`, or `"F"` is also
among the configured outputs; when the missing channel is F and F is not
among the outputs, the F input is never consulted and `process` can
succeed (see the counterexample). -/
theorem claim7_missing_channel (a : AdjAlgo) (stream : List Trace) (c : String)
    (hc : c ∈ a.inchannels) (hmiss : select stream c = [])
    (hcase : c ≠ "F" ∨ "F" ∈ a.outchannels) :
    ∃ e, process a stream = .error e := by
  have hsel : select0 stream c = .error (.indexError "list index out of range") := by
    unfold select0
    rw [hmiss]
  by_cases hF : c = "F"
  · -- the missing channel is F; then F is among the outputs
    have hFout : "F" ∈ a.outchannels := by
      rcases hcase with hne | hFout
      · exact absurd hF hne
      · exact hFout
    have hFin : "F" ∈ a.inchannels := hF ▸ hc
    have hselF : select0 stream "F" = .error (.indexError "list index out of range") :=
      hF ▸ hsel
    cases h1 : (a.inchannels.filter (fun x => x ≠ "F")).mapM
        (fun ch => do
          let t ← select0 stream ch
          pure t.data) with
    | error e => exact ⟨e, by unfold process; dsimp only; rw [h1]; rfl⟩
    | ok datas =>
      cases h2 : listIndex stream 0 with
      | error e => exact ⟨e, by unfold process; dsimp only; rw [h1, bindE_ok, h2]; rfl⟩
      | ok first =>
        cases h3 : npVstack (datas ++ [List.replicate first.data.length (1 : ℚ)]) with
        | error e =>
          exact ⟨e, by unfold process; dsimp only; rw [h1, bindE_ok, h2, bindE_ok, h3]; rfl⟩
        | ok raws =>
          cases h4 : pyVal a.matrix with
          | error e =>
            exact ⟨e, by
              unfold process
              dsimp only
              rw [h1, bindE_ok, h2, bindE_ok, h3, bindE_ok, h4]
              rfl⟩
          | ok matrix =>
            cases h5 : npMatmul matrix raws with
            | error e =>
              exact ⟨e, by
                unfold process
                dsimp only
                rw [h1, bindE_ok, h2, bindE_ok, h3, bindE_ok, h4, bindE_ok, h5]
                rfl⟩
            | ok adjusted =>
              cases h6 : (List.range (adjusted.length - 1)).mapM
                  (fun i => do
                    let oc ← listIndex a.outchannels i
                    let ic ← listIndex a.inchannels i
                    let tr ← select0 stream ic
                    pure (create_trace a oc tr.stats (adjusted.getD i []))) with
              | error e =>
                exact ⟨e, by
                  unfold process
                  dsimp only
                  rw [h1, bindE_ok, h2, bindE_ok, h3, bindE_ok, h4, bindE_ok, h5,
                    bindE_ok, h6]
                  rfl⟩
              | ok outs =>
                refine ⟨.indexError "list index out of range", ?_⟩
                unfold process
                dsimp only
                rw [h1, bindE_ok, h2, bindE_ok, h3, bindE_ok, h4, bindE_ok, h5,
                  bindE_ok, h6, bindE_ok]
                rw [if_pos ⟨hFin, hFout⟩, hselF]
                rfl
  · -- a non-F channel is missing: the input stacking fails
    have hcf : c ∈ a.inchannels.filter (fun x => x ≠ "F") := by
      rw [List.mem_filter]
      exact ⟨hc, by simp [hF]⟩
    obtain ⟨e2, he2⟩ := mapM_error
      (fun ch => do
        let t ← select0 stream ch
        pure t.data)
      (a.inchannels.filter (fun x => x ≠ "F")) c hcf
      (.indexError "list index out of range") (by dsimp only; rw [hsel]; rfl)
    exact ⟨e2, by unfold process; dsimp only; rw [he2]; rfl⟩

/-- Witness for C7's amended statement: the default configuration with
channel E absent from the batch. -/
theorem claim7_witness :
    ∃ e,
      process
        ⟨some (eye 4), some 0, none, none, none,
          ["H", "E", "Z", "F"], ["X", "Y", "Z", "F"]⟩
        [⟨⟨"H", "BOU", none, none⟩, [1]⟩,
         ⟨⟨"Z", "BOU", none, none⟩, [3]⟩,
         ⟨⟨"F", "BOU", none, none⟩, [4]⟩] = .error e :=
  claim7_missing_channel
    ⟨some (eye 4), some 0, none, none, none,
      ["H", "E", "Z", "F"], ["X", "Y", "Z", "F"]⟩
    [⟨⟨"H", "BOU", none, none⟩, [1]⟩,
     ⟨⟨"Z", "BOU", none, none⟩, [3]⟩,
     ⟨⟨"F", "BOU", none, none⟩, [4]⟩]
    "E" (by decide) (by decide) (Or.inl (by decide))

end Adjusted

namespace Adjusted

/-- Claim C2: on a batch carrying all configured input channels (the non-F
channels followed by F, equal-length samples), `process` with the default
identity matrix and zero pier correction returns output channels
numerically equal to the corresponding input channels, and the F output
equals the F input unchanged. -/
theorem claim2_identity_process (a : AdjAlgo) (nonF : List String)
    (stream : List Trace) (T : Nat)
    (hin : a.inchannels = nonF ++ ["F"])
    (hF : "F" ∉ nonF)
    (hm : a.matrix = some (eye (nonF.length + 1)))
    (hpc : a.pier_correction = some 0)
    (hout : a.outchannels.length = nonF.length + 1)
    (hFout : "F" ∈ a.outchannels)
    (hcov : ∀ c ∈ a.inchannels, select stream c ≠ [])
    (hlen : ∀ t ∈ stream, t.data.length = T)
    (hne : stream ≠ []) :
    ∃ out, process a stream = .ok out ∧ out.length = nonF.length + 1 ∧
      ∀ i, i < nonF.length + 1 →
        (out.getD i emptyTrace).data = selData stream (a.inchannels.getD i "") := by
  -- the non-F channel list
  have hfilter : a.inchannels.filter (fun x => x ≠ "F") = nonF := by
    rw [hin, List.filter_append]
    have h1 : nonF.filter (fun x => decide (x ≠ "F")) = nonF := by
      apply List.filter_eq_self.mpr
      intro c hc
      rw [decide_eq_true_eq]
      intro heq
      exact hF (heq ▸ hc)
    have h2 : (["F"] : List String).filter (fun x => decide (x ≠ "F")) = [] := rfl
    rw [h1, h2, List.append_nil]
  -- stacking the inputs succeeds channelwise
  have hdat : ∀ c ∈ nonF,
      (do
        let t ← select0 stream c
        pure t.data : Except PyErr (List ℚ)) = .ok (selData stream c) := by
    intro c hc
    have hcin : c ∈ a.inchannels := by
      rw [hin]
      exact List.mem_append_left _ hc
    rw [select0_ok stream c (hcov c hcin)]
    rfl
  have hmapM := mapM_ok (fun c =>
      (do
        let t ← select0 stream c
        pure t.data : Except PyErr (List ℚ)))
    (fun c => selData stream c) nonF hdat
  -- the first trace
  obtain ⟨t0, rest, hstream⟩ : ∃ t0 rest, stream = t0 :: rest := by
    cases stream with
    | nil => exact absurd rfl hne
    | cons t0 rest => exact ⟨t0, rest, rfl⟩
  have hfirst : listIndex stream 0 = .ok t0 := by
    rw [hstream]
    exact listIndex_lt (t0 :: rest) 0 emptyTrace (by simp)
  have ht0len : t0.data.length = T := hlen t0 (by rw [hstream]; exact List.mem_cons_self _ _)
  -- the stacked matrix
  have hrowlen : ∀ r ∈ (nonF.map (fun c => selData stream c) ++
      [List.replicate t0.data.length (1 : ℚ)]), r.length = T := by
    intro r hr
    rcases List.mem_append.mp hr with h | h
    · obtain ⟨c, hc, rfl⟩ := List.mem_map.mp h
      have hcin : c ∈ a.inchannels := by
        rw [hin]
        exact List.mem_append_left _ hc
      exact hlen _ (selTrace_mem stream c (hcov c hcin))
    · have : r = List.replicate t0.data.length (1 : ℚ) := by simpa using h
      rw [this]
      simp [ht0len]
  have hrowsne : (nonF.map (fun c => selData stream c) ++
      [List.replicate t0.data.length (1 : ℚ)]) ≠ [] := by simp
  have hvs := npVstack_ok _ T hrowsne hrowlen
  have hrowslen : (nonF.map (fun c => selData stream c) ++
      [List.replicate t0.data.length (1 : ℚ)]).length = nonF.length + 1 := by simp
  have hmm := npMatmul_eye _ (nonF.length + 1) T hrowslen hrowlen
  -- the per-row output traces
  have houts : ∀ i ∈ List.range ((nonF.map (fun c => selData stream c) ++
      [List.replicate t0.data.length (1 : ℚ)]).length - 1),
      (do
        let oc ← listIndex a.outchannels i
        let ic ← listIndex a.inchannels i
        let tr ← select0 stream ic
        pure (create_trace a oc tr.stats ((nonF.map (fun c => selData stream c) ++
          [List.replicate t0.data.length (1 : ℚ)]).getD i [])) :
        Except PyErr Trace) =
      .ok (create_trace a (a.outchannels.getD i "")
        (selTrace stream (a.inchannels.getD i "")).stats
        ((nonF.map (fun c => selData stream c) ++
          [List.replicate t0.data.length (1 : ℚ)]).getD i [])) := by
    intro i hi
    have hi2 : i < nonF.length := by
      rw [hrowslen] at hi
      simpa using List.mem_range.mp hi
    have hiout : i < a.outchannels.length := by omega
    have hiin : i < a.inchannels.length := by
      rw [hin]
      simp
      omega
    have hicmem : a.inchannels.getD i "" ∈ a.inchannels := by
      rw [List.getD_eq_getElem a.inchannels "" hiin]
      exact List.getElem_mem hiin
    rw [listIndex_lt a.outchannels i "" hiout]
    rw [bindE_ok]
    rw [listIndex_lt a.inchannels i "" hiin]
    rw [bindE_ok]
    rw [select0_ok stream _ (hcov _ hicmem)]
    rfl
  have houtsM := mapM_ok _ (fun i => create_trace a (a.outchannels.getD i "")
      (selTrace stream (a.inchannels.getD i "")).stats
      ((nonF.map (fun c => selData stream c) ++
        [List.replicate t0.data.length (1 : ℚ)]).getD i []))
    (List.range ((nonF.map (fun c => selData stream c) ++
      [List.replicate t0.data.length (1 : ℚ)]).length - 1)) houts
  -- F is present on both sides
  have hFin : "F" ∈ a.inchannels := by
    rw [hin]
    exact List.mem_append_right _ (by simp)
  have hFsel := select0_ok stream "F" (hcov "F" hFin)
  -- evaluate process
  have hproc : process a stream =
      .ok ((List.range ((nonF.map (fun c => selData stream c) ++
          [List.replicate t0.data.length (1 : ℚ)]).length - 1)).map
            (fun i => create_trace a (a.outchannels.getD i "")
              (selTrace stream (a.inchannels.getD i "")).stats
              ((nonF.map (fun c => selData stream c) ++
                [List.replicate t0.data.length (1 : ℚ)]).getD i [])) ++
          [create_trace a "F" (selTrace stream "F").stats
            ((selTrace stream "F").data.map (fun x => x + 0))]) := by
    unfold process
    dsimp only
    rw [hfilter, hmapM, bindE_ok, hfirst, bindE_ok, hvs, bindE_ok, hm, pyVal_some,
      bindE_ok, hmm, bindE_ok, houtsM, bindE_ok, if_pos ⟨hFin, hFout⟩, hFsel,
      bindE_ok, hpc, pyVal_some, bindE_ok]
    rfl
  refine ⟨_, hproc, ?_, ?_⟩
  · simp [hrowslen]
  · intro i hi
    by_cases hi2 : i < nonF.length
    · have hmaplen : ((List.range ((nonF.map (fun c => selData stream c) ++
          [List.replicate t0.data.length (1 : ℚ)]).length - 1)).map
            (fun i => create_trace a (a.outchannels.getD i "")
              (selTrace stream (a.inchannels.getD i "")).stats
              ((nonF.map (fun c => selData stream c) ++
                [List.replicate t0.data.length (1 : ℚ)]).getD i []))).length = nonF.length := by
        simp [hrowslen]
      rw [List.getD_append _ _ _ _ (by rw [hmaplen]; exact hi2)]
      rw [List.getD_eq_getElem _ emptyTrace (by rw [hmaplen]; exact hi2)]
      rw [List.getElem_map]
      rw [List.getElem_range]
      rw [create_trace_data]
      rw [List.getD_append _ _ _ _ (by simpa using hi2)]
      rw [List.getD_eq_getElem _ ([] : List ℚ) (by simpa using hi2)]
      rw [List.getElem_map]
      congr 1
      rw [hin]
      rw [List.getD_eq_getElem _ "" (by simp; omega)]
      rw [List.getElem_append_left (by simpa using hi2)]
    · have hieq : i = nonF.length := by omega
      subst hieq
      have hmaplen : ((List.range ((nonF.map (fun c => selData stream c) ++
          [List.replicate t0.data.length (1 : ℚ)]).length - 1)).map
            (fun i => create_trace a (a.outchannels.getD i "")
              (selTrace stream (a.inchannels.getD i "")).stats
              ((nonF.map (fun c => selData stream c) ++
                [List.replicate t0.data.length (1 : ℚ)]).getD i []))).length = nonF.length := by
        simp [hrowslen]
      rw [List.getD_append_right _ _ _ _ (by rw [hmaplen])]
      rw [hmaplen]
      simp only [Nat.sub_self]
      show (create_trace a "F" (selTrace stream "F").stats
        ((selTrace stream "F").data.map (fun x => x + 0))).data = _
      rw [create_trace_data]
      have hmap0 : (selTrace stream "F").data.map (fun x => x + 0) =
          (selTrace stream "F").data := by simp
      rw [hmap0]
      have hFget : a.inchannels.getD nonF.length "" = "F" := by
        rw [hin]
        rw [List.getD_eq_getElem _ "" (by simp)]
        rw [List.getElem_append_right (by omega)]
        simp
      rw [hFget]
      rfl

/-- Witness for C2: the default HEZF configuration on a concrete batch. -/
theorem claim2_witness :
    ∃ out,
      process
          ⟨some (eye 4), some 0, none, none, none,
            ["H", "E", "Z", "F"], ["X", "Y", "Z", "F"]⟩
          [⟨⟨"H", "BOU", none, none⟩, [1]⟩,
           ⟨⟨"E", "BOU", none, none⟩, [2]⟩,
           ⟨⟨"Z", "BOU", none, none⟩, [3]⟩,
           ⟨⟨"F", "BOU", none, none⟩, [4]⟩] = .ok out ∧
        out.length = (["H", "E", "Z"] : List String).length + 1 ∧
        ∀ i, i < (["H", "E", "Z"] : List String).length + 1 →
          (out.getD i emptyTrace).data =
            selData
              [⟨⟨"H", "BOU", none, none⟩, [1]⟩,
               ⟨⟨"E", "BOU", none, none⟩, [2]⟩,
               ⟨⟨"Z", "BOU", none, none⟩, [3]⟩,
               ⟨⟨"F", "BOU", none, none⟩, [4]⟩]
              ((⟨some (eye 4), some 0, none, none, none,
                ["H", "E", "Z", "F"], ["X", "Y", "Z", "F"]⟩ : AdjAlgo).inchannels.getD i "") :=
  claim2_identity_process
    ⟨some (eye 4), some 0, none, none, none,
      ["H", "E", "Z", "F"], ["X", "Y", "Z", "F"]⟩
    ["H", "E", "Z"]
    [⟨⟨"H", "BOU", none, none⟩, [1]⟩,
     ⟨⟨"E", "BOU", none, none⟩, [2]⟩,
     ⟨⟨"Z", "BOU", none, none⟩, [3]⟩,
     ⟨⟨"F", "BOU", none, none⟩, [4]⟩]
    1 rfl (by decide) rfl rfl rfl (by decide) (by decide) (by decide) (by decide)

end Adjusted

namespace Adjusted

theorem repr_digit_toList : ∀ k, 1 ≤ k → k ≤ 9 →
    (Nat.repr k).toList = [Char.ofNat (48 + k)] := by
  intro k h1 h9
  interval_cases k <;> decide

theorem char_ofNat_toNat : ∀ x, x < 100 → (Char.ofNat x).toNat = x := by
  decide

theorem mkey_toList (i j : Nat) (hi : i < 9) (hj : j < 9) :
    (mkey i j).toList = ['M', Char.ofNat (49 + i), Char.ofNat (49 + j)] := by
  show ("M" ++ Nat.repr (i + 1) ++ Nat.repr (j + 1)).data = _
  rw [data_append, data_append]
  rw [show (Nat.repr (i+1)).data = (Nat.repr (i+1)).toList from rfl]
  rw [show (Nat.repr (j+1)).data = (Nat.repr (j+1)).toList from rfl]
  rw [repr_digit_toList (i+1) (by omega) (by omega)]
  rw [repr_digit_toList (j+1) (by omega) (by omega)]
  have hi2 : 48 + (i + 1) = 49 + i := by omega
  have hj2 : 48 + (j + 1) = 49 + j := by omega
  rw [hi2, hj2]
  rfl

theorem string_eq_of_toList (s t : String) (h : s.toList = t.toList) : s = t := by
  cases s
  cases t
  exact congrArg String.mk h

theorem mkey_inj (i j x y : Nat) (hi : i < 9) (hj : j < 9) (hx : x < 9) (hy : y < 9)
    (h : mkey i j = mkey x y) : i = x ∧ j = y := by
  have h2 := congrArg String.toList h
  rw [mkey_toList i j hi hj, mkey_toList x y hx hy] at h2
  simp only [List.cons.injEq] at h2
  obtain ⟨-, hc1, hc2, -⟩ := h2
  constructor
  · have := congrArg Char.toNat hc1
    rw [char_ofNat_toNat (49 + i) (by omega), char_ofNat_toNat (49 + x) (by omega)] at this
    omega
  · have := congrArg Char.toNat hc2
    rw [char_ofNat_toNat (49 + j) (by omega), char_ofNat_toNat (49 + y) (by omega)] at this
    omega

theorem pyListLt_cons_same (x : Char) (xs ys : List Char) :
    pyListLt (x :: xs) (x :: ys) = pyListLt xs ys := by
  show (if x.toNat < x.toNat then true
    else if x.toNat < x.toNat then false else pyListLt xs ys) = pyListLt xs ys
  simp

theorem pyListLt_cons_lt (x y : Char) (xs ys : List Char) (h : x.toNat < y.toNat) :
    pyListLt (x :: xs) (y :: ys) = true := by
  show (if x.toNat < y.toNat then true
    else if y.toNat < x.toNat then false else pyListLt xs ys) = true
  simp [h]

theorem pyListLt_irrefl : ∀ l : List Char, pyListLt l l = false := by
  intro l
  induction l with
  | nil => rfl
  | cons x xs ih => rw [pyListLt_cons_same]; exact ih

theorem pyListLt_asymm : ∀ l1 l2 : List Char,
    pyListLt l1 l2 = true → pyListLt l2 l1 = false := by
  intro l1
  induction l1 with
  | nil =>
    intro l2 h
    cases l2 with
    | nil => simp [pyListLt] at h
    | cons y ys => rfl
  | cons x xs ih =>
    intro l2 h
    cases l2 with
    | nil => simp [pyListLt] at h
    | cons y ys =>
      unfold pyListLt at h ⊢
      by_cases hxy : x.toNat < y.toNat
      · have hyx : ¬ y.toNat < x.toNat := by omega
        simp [hxy, hyx]
      · by_cases hyx : y.toNat < x.toNat
        · simp [hxy, hyx] at h
        · simp only [hxy, hyx, if_false]
          simp only [if_neg hxy, if_neg hyx] at h
          exact ih ys h

theorem pyStrLt_irrefl (s : String) : pyStrLt s s = false :=
  pyListLt_irrefl s.toList

theorem pyStrLt_asymm (s t : String) (h : pyStrLt s t = true) : pyStrLt t s = false :=
  pyListLt_asymm s.toList t.toList h

theorem pyMax_eq (a : String) : ∀ (l : List String) (acc : String),
    (∀ b ∈ l, b = a ∨ pyStrLt b a = true) →
    (acc = a ∨ (pyStrLt acc a = true ∧ a ∈ l)) →
    pyMax acc l = a := by
  intro l
  induction l with
  | nil =>
    intro acc hall hacc
    rcases hacc with h | ⟨-, h⟩
    · exact h
    · simp at h
  | cons b bs ih =>
    intro acc hall hacc
    unfold pyMax
    rw [List.foldl_cons]
    have step : (if pyStrLt acc b then b else acc) = a ∨
        (pyStrLt (if pyStrLt acc b then b else acc) a = true ∧ a ∈ bs) := by
      rcases hacc with rfl | ⟨hlt, hmem⟩
      · -- acc is already the maximum
        rcases hall b (List.mem_cons_self b bs) with rfl | hb
        · rw [pyStrLt_irrefl]
          simp
        · rw [pyStrLt_asymm b acc hb]
          simp
      · -- the maximum is still ahead (or is b)
        rcases List.mem_cons.mp hmem with rfl | hmem2
        · by_cases hab : pyStrLt acc a = true
          · rw [hab]
            simp
          · exact absurd hlt hab
        · rcases hall b (List.mem_cons_self b bs) with rfl | hb
          · by_cases h2 : pyStrLt acc b = true
            · rw [h2]
              simp
            · simp only [h2, if_false]
              exact Or.inr ⟨hlt, hmem2⟩
          · by_cases h2 : pyStrLt acc b = true
            · simp only [h2, if_true]
              exact Or.inr ⟨hb, hmem2⟩
            · simp only [h2, if_false]
              exact Or.inr ⟨hlt, hmem2⟩
    exact ih _ (fun c hc => hall c (List.mem_cons_of_mem b hc)) step



theorem mem_cellPairs (n i j : Nat) : (i, j) ∈ cellPairs n ↔ i < n ∧ j < n := by
  unfold cellPairs
  simp [List.mem_flatMap, List.mem_map, List.mem_range]

theorem mkey_lt_max (n i j : Nat) (hn : n ≤ 9) (hi : i < n) (hj : j < n)
    (hne : ¬(i = n - 1 ∧ j = n - 1)) :
    pyStrLt (mkey i j) (mkey (n - 1) (n - 1)) = true := by
  unfold pyStrLt
  rw [mkey_toList i j (by omega) (by omega), mkey_toList (n-1) (n-1) (by omega) (by omega)]
  by_cases hilt : i < n - 1
  · rw [pyListLt_cons_same]
    apply pyListLt_cons_lt
    rw [char_ofNat_toNat (49 + i) (by omega), char_ofNat_toNat (49 + (n-1)) (by omega)]
    omega
  · have hieq : i = n - 1 := by omega
    have hjlt : j < n - 1 := by
      rcases Nat.lt_or_ge j (n-1) with h | h
      · exact h
      · exfalso; exact hne ⟨hieq, by omega⟩
    subst hieq
    rw [pyListLt_cons_same, pyListLt_cons_same]
    apply pyListLt_cons_lt
    rw [char_ofNat_toNat (49 + j) (by omega), char_ofNat_toNat (49 + (n-1)) (by omega)]
    omega

theorem cellKeys_max (n : Nat) (h1 : 1 ≤ n) (h9 : n ≤ 9) (k : String) (ks : List String)
    (hk : (cellPairs n).map (fun p => mkey p.1 p.2) = k :: ks) :
    pyMax k ks = mkey (n - 1) (n - 1) := by
  have hmem : mkey (n-1) (n-1) ∈ (cellPairs n).map (fun p => mkey p.1 p.2) := by
    apply List.mem_map.mpr
    exact ⟨(n-1, n-1), (mem_cellPairs n (n-1) (n-1)).mpr ⟨by omega, by omega⟩, rfl⟩
  have hall : ∀ b ∈ (cellPairs n).map (fun p => mkey p.1 p.2),
      b = mkey (n-1) (n-1) ∨ pyStrLt b (mkey (n-1) (n-1)) = true := by
    intro b hb
    obtain ⟨p, hp, rfl⟩ := List.mem_map.mp hb
    obtain ⟨hpi, hpj⟩ := (mem_cellPairs n p.1 p.2).mp (by
      cases p
      exact hp)
    by_cases hpe : p.1 = n - 1 ∧ p.2 = n - 1
    · left
      rw [hpe.1, hpe.2]
    · right
      exact mkey_lt_max n p.1 p.2 h9 hpi hpj hpe
  rw [hk] at hmem hall
  apply pyMax_eq
  · intro b hb
    exact hall b (List.mem_cons_of_mem k hb)
  · rcases List.mem_cons.mp hmem with heq | hmem2
    · left
      exact heq.symm
    · rcases hall k (List.mem_cons_self k ks) with heq | hlt
      · left
        exact heq
      · right
        exact ⟨hlt, hmem2⟩

theorem maxkey_inferLength (n : Nat) (h1 : 1 ≤ n) (h9 : n ≤ 9) (k : String)
    (ks : List String)
    (hk : (cellPairs n).map (fun p => mkey p.1 p.2) = k :: ks) :
    inferLength (k :: ks) = .ok n := by
  unfold inferLength
  dsimp only
  rw [cellKeys_max n h1 h9 k ks hk]
  rw [mkey_toList (n-1) (n-1) (by omega) (by omega)]
  have hlast : (['M', Char.ofNat (49 + (n-1)), Char.ofNat (49 + (n-1))] : List Char).getLast? =
      some (Char.ofNat (49 + (n-1))) := rfl
  rw [hlast]
  dsimp only
  have htn : (Char.ofNat (49 + (n-1))).toNat = 49 + (n-1) := char_ofNat_toNat _ (by omega)
  have hint : pyIntOfChar (Char.ofNat (49 + (n-1))) = some n := by
    unfold pyIntOfChar
    rw [htn]
    rw [if_pos (by constructor <;> omega)]
    have h48 : 49 + (n - 1) - 48 = n := by omega
    rw [h48]
  rw [hint]



theorem shape_eye (n : Nat) : Shape (eye n) n :=
  ⟨eye_length n, fun r hr => eye_mem_length n r hr⟩

theorem shape_setCell (M : List (List ℚ)) (n i j : Nat) (v : ℚ) (hs : Shape M n)
    (hi : i < n) : Shape (setCell M i j v) n := by
  obtain ⟨hlen, hrows⟩ := hs
  constructor
  · rw [setCell, List.length_set]
    exact hlen
  · intro r hr
    rcases List.mem_or_eq_of_mem_set hr with h | h
    · exact hrows r h
    · rw [h, List.length_set]
      apply hrows
      rw [List.getD_eq_getElem M [] (by omega)]
      exact List.getElem_mem (by omega)

theorem cell_setCell_self (M : List (List ℚ)) (n i j : Nat) (v : ℚ) (hs : Shape M n)
    (hi : i < n) (hj : j < n) : cell (setCell M i j v) i j = v := by
  obtain ⟨hlen, hrows⟩ := hs
  have hrowi : M.getD i [] ∈ M := by
    rw [List.getD_eq_getElem M [] (by omega)]
    exact List.getElem_mem (by omega)
  have hrlen : (M.getD i []).length = n := hrows _ hrowi
  unfold cell setCell
  have h1 : (M.set i ((M.getD i []).set j v)).getD i [] = (M.getD i []).set j v := by
    rw [List.getD_eq_getElem _ _ (by rw [List.length_set]; omega)]
    exact List.getElem_set_self _
  rw [h1]
  rw [List.getD_eq_getElem _ _ (by rw [List.length_set]; omega)]
  exact List.getElem_set_self _

theorem cell_setCell_other (M : List (List ℚ)) (i j x y : Nat) (v : ℚ)
    (hne : i ≠ x ∨ j ≠ y) : cell (setCell M i j v) x y = cell M x y := by
  unfold cell setCell
  rcases hne with h | h
  · have : (M.set i ((M.getD i []).set j v)).getD x [] = M.getD x [] := by
      simp [List.getD, List.getElem?_set_ne h]
    rw [this]
  · by_cases hix : i = x
    · subst hix
      by_cases hlt : i < M.length
      · have h1 : (M.set i ((M.getD i []).set j v)).getD i [] = (M.getD i []).set j v := by
          rw [List.getD_eq_getElem _ _ (by rw [List.length_set]; omega)]
          exact List.getElem_set_self _
        rw [h1]
        simp [List.getD, List.getElem?_set_ne h]
      · have h1 : M.set i ((M.getD i []).set j v) = M := by
          apply List.set_eq_of_length_le
          omega
        rw [h1]
    · have : (M.set i ((M.getD i []).set j v)).getD x [] = M.getD x [] := by
        simp [List.getD, List.getElem?_set_ne hix]
      rw [this]

theorem matrix_ext (A B : List (List ℚ)) (n : Nat) (hA : Shape A n) (hB : Shape B n)
    (h : ∀ i j, i < n → j < n → cell A i j = cell B i j) : A = B := by
  obtain ⟨hAl, hAr⟩ := hA
  obtain ⟨hBl, hBr⟩ := hB
  apply List.ext_getElem
  · omega
  · intro i h1 h2
    apply List.ext_getElem
    · rw [hAr _ (List.getElem_mem h1), hBr _ (List.getElem_mem h2)]
    · intro j hj1 hj2
      have hi : i < n := by omega
      have hj : j < n := by
        rw [hAr _ (List.getElem_mem h1)] at hj1
        exact hj1
      have hc := h i j hi hj
      unfold cell at hc
      rw [List.getD_eq_getElem A [] (by omega), List.getD_eq_getElem B [] (by omega)] at hc
      rw [List.getD_eq_getElem _ _ (by omega), List.getD_eq_getElem _ _ (by omega)] at hc
      exact hc

theorem lookup_map_inj (key : Nat × Nat → String) (val : Nat × Nat → ℚ)
    (l : List (Nat × Nat)) (x : Nat × Nat) (hx : x ∈ l)
    (hinj : ∀ y ∈ l, key y = key x → y = x) :
    (l.map (fun y => (key y, val y))).lookup (key x) = some (val x) := by
  induction l with
  | nil => simp at hx
  | cons y ys ih =>
    rw [List.map_cons]
    by_cases hxy : key x = key y
    · have : y = x := hinj y (List.mem_cons_self y ys) hxy.symm
      subst this
      rw [List.lookup_cons]
      simp
    · rw [List.lookup_cons]
      have hbeq : (key x == key y) = false := by
        rw [beq_eq_false_iff_ne]
        exact hxy
      rw [hbeq]
      have hx2 : x ∈ ys := by
        rcases List.mem_cons.mp hx with rfl | h
        · exact absurd rfl hxy
        · exact h
      exact ih hx2 (fun z hz => hinj z (List.mem_cons_of_mem y hz))

theorem fillGo_ok_cells (entries : List (String × ℚ)) (m : List (List ℚ)) (n : Nat) :
    ∀ (pairs : List (Nat × Nat)) (M0 : List (List ℚ)), Shape M0 n →
      (∀ p ∈ pairs, p.1 < n ∧ p.2 < n) →
      (∀ p ∈ pairs, entries.lookup (mkey p.1 p.2) = some (cell m p.1 p.2)) →
      (fillGo entries pairs M0).2 = none ∧
      Shape (fillGo entries pairs M0).1 n ∧
      ∀ i j, i < n → j < n →
        cell (fillGo entries pairs M0).1 i j =
          if (i, j) ∈ pairs then cell m i j else cell M0 i j := by
  intro pairs
  induction pairs with
  | nil =>
    intro M0 hs hb hl
    refine ⟨rfl, hs, ?_⟩
    intro i j hi hj
    simp [fillGo]
  | cons p rest ih =>
    intro M0 hs hb hl
    have hp := hl p (List.mem_cons_self p rest)
    unfold fillGo
    rw [hp]
    have hpb := hb p (List.mem_cons_self p rest)
    have hs2 : Shape (setCell M0 p.1 p.2 (cell m p.1 p.2)) n :=
      shape_setCell M0 n p.1 p.2 _ hs hpb.1
    obtain ⟨he, hsh, hcells⟩ := ih (setCell M0 p.1 p.2 (cell m p.1 p.2)) hs2
      (fun q hq => hb q (List.mem_cons_of_mem p hq))
      (fun q hq => hl q (List.mem_cons_of_mem p hq))
    refine ⟨he, hsh, ?_⟩
    intro i j hi hj
    rw [hcells i j hi hj]
    by_cases hmem : (i, j) ∈ rest
    · rw [if_pos hmem, if_pos (List.mem_cons_of_mem p hmem)]
    · rw [if_neg hmem]
      by_cases hpe : p = (i, j)
      · have hp1 : p.1 = i := by rw [hpe]
        have hp2 : p.2 = j := by rw [hpe]
        rw [hp1, hp2]
        rw [cell_setCell_self M0 n i j _ hs (hp1 ▸ hpb.1) (hp2 ▸ hpb.2)]
        rw [if_pos (List.mem_cons.mpr (Or.inl hpe.symm))]
      · have hne : p.1 ≠ i ∨ p.2 ≠ j := by
          by_contra hcon
          push_neg at hcon
          exact hpe (by
            cases p
            simp at hcon ⊢
            exact hcon)
        rw [cell_setCell_other M0 p.1 p.2 i j _ hne]
        rw [if_neg (by
          intro hmem2
          rcases List.mem_cons.mp hmem2 with heq | h
          · exact hpe heq.symm
          · exact hmem h)]



/-- Claim C1 (amended): for every valid square matrix of dimension `n`
with `1 ≤ n ≤ 9` and every scalar pier correction, `save_state` followed by
`load_state` on the same path reproduces both the matrix and the
correction exactly and raises nothing.  (For `n ≥ 10` the digit-based key
scheme breaks down; see the counterexample.) -/
theorem claim1_roundtrip (m : List (List ℚ)) (pc : ℚ) (n : Nat)
    (h1 : 1 ≤ n) (h9 : n ≤ 9) (hm : m.length = n) (hrow : ∀ r ∈ m, r.length = n)
    (inch : List String) (path : String) (fs : String → ReadResult)
    (hfs : fs path = .content (.record (save_record m pc))) :
    (load_state inch (some path) fs).matrix = m ∧
      (load_state inch (some path) fs).pier_correction = pc ∧
      (load_state inch (some path) fs).err = none := by
  rw [load_state_record inch path fs _ hfs]
  have hhead : (m.headD []).length = n := by
    cases hmc : m with
    | nil =>
      rw [hmc] at hm
      simp at hm
      omega
    | cons r rs => exact hrow r (by rw [hmc]; exact List.mem_cons_self r rs)
  have hsave : save_record m pc =
      ("PC", pc) :: (cellPairs n).map (fun p => (mkey p.1 p.2, cell m p.1 p.2)) := by
    unfold save_record
    rw [hhead]
  have hpcl : (save_record m pc).lookup "PC" = some pc := by
    rw [hsave, List.lookup_cons]
    simp
  have hrest : (save_record m pc).filter (fun kv => kv.1 ≠ "PC") =
      (cellPairs n).map (fun p => (mkey p.1 p.2, cell m p.1 p.2)) := by
    rw [hsave, List.filter_cons]
    have hPC : (decide ((("PC", pc) : String × ℚ).1 ≠ "PC")) = false := by simp
    rw [hPC]
    simp only [Bool.false_eq_true, if_false]
    apply List.filter_eq_self.mpr
    intro kv hkv
    obtain ⟨p, hp, rfl⟩ := List.mem_map.mp hkv
    rw [decide_eq_true_eq]
    exact mkey_ne_PC p.1 p.2
  have hmapfst : ((cellPairs n).map (fun q => (mkey q.1 q.2, cell m q.1 q.2))).map
      (fun kv => kv.1) = (cellPairs n).map (fun p => mkey p.1 p.2) := by
    rw [List.map_map]
    rfl
  have hmdiag : mkey (n-1) (n-1) ∈ (cellPairs n).map (fun p => mkey p.1 p.2) :=
    List.mem_map.mpr ⟨(n-1, n-1), (mem_cellPairs n (n-1) (n-1)).mpr ⟨by omega, by omega⟩, rfl⟩
  have hkne : (cellPairs n).map (fun p => mkey p.1 p.2) ≠ [] := by
    intro h
    rw [h] at hmdiag
    simp at hmdiag
  cases hksc : (cellPairs n).map (fun p => mkey p.1 p.2) with
  | nil => exact absurd hksc hkne
  | cons k ks =>
  have hinfer : inferLength (((save_record m pc).filter
      (fun kv => kv.1 ≠ "PC")).map (fun kv => kv.1)) = .ok n := by
    rw [hrest, hmapfst, hksc]
    exact maxkey_inferLength n h1 h9 k ks hksc
  have hlk : ∀ p ∈ cellPairs n,
      ((cellPairs n).map (fun q => (mkey q.1 q.2, cell m q.1 q.2))).lookup
        (mkey p.1 p.2) = some (cell m p.1 p.2) := by
    intro p hp
    have hpb := (mem_cellPairs n p.1 p.2).mp (by cases p; exact hp)
    apply lookup_map_inj (fun q => mkey q.1 q.2) (fun q => cell m q.1 q.2) (cellPairs n) p hp
    intro y hy hkey
    have hyb := (mem_cellPairs n y.1 y.2).mp (by cases y; exact hy)
    obtain ⟨e1, e2⟩ := mkey_inj y.1 y.2 p.1 p.2 (by omega) (by omega) (by omega) (by omega) hkey
    cases y
    cases p
    simp only at e1 e2
    rw [e1, e2]
  obtain ⟨hfe, hfsh, hfcells⟩ := fillGo_ok_cells
    ((cellPairs n).map (fun q => (mkey q.1 q.2, cell m q.1 q.2))) m n
    (cellPairs n) (eye n) (shape_eye n)
    (fun p hp => (mem_cellPairs n p.1 p.2).mp (by cases p; exact hp))
    hlk
  have hfinal : (fillGo ((cellPairs n).map (fun q => (mkey q.1 q.2, cell m q.1 q.2)))
      (cellPairs n) (eye n)).1 = m := by
    apply matrix_ext _ m n hfsh ⟨hm, hrow⟩
    intro i j hi hj
    rw [hfcells i j hi hj, if_pos ((mem_cellPairs n i j).mpr ⟨hi, hj⟩)]
  unfold load_parse
  rw [hpcl]
  dsimp only
  rw [hinfer]
  dsimp only
  rw [hrest, hfe]
  exact ⟨hfinal, rfl, rfl⟩



/-- Witness for C1 at a concrete 2-by-2 matrix and correction 5. -/
theorem claim1_witness :
    (load_state ["H", "E", "Z", "F"] (some "adj_state.json")
        (fun _ => .content (.record (save_record [[1, 2], [3, 4]] 5)))).matrix =
        [[1, 2], [3, 4]] ∧
      (load_state ["H", "E", "Z", "F"] (some "adj_state.json")
        (fun _ => .content (.record (save_record [[1, 2], [3, 4]] 5)))).pier_correction = 5 ∧
      (load_state ["H", "E", "Z", "F"] (some "adj_state.json")
        (fun _ => .content (.record (save_record [[1, 2], [3, 4]] 5)))).err = none :=
  claim1_roundtrip [[1, 2], [3, 4]] 5 2 (by decide) (by decide) rfl (by decide)
    ["H", "E", "Z", "F"] "adj_state.json" _ rfl

set_option maxRecDepth 10000 in
/-- Claim C1 counterexample: saving the 10-by-10 identity produces keys
like `M1010`; on load, the lexicographically greatest key is `M99`, the
inferred dimension is 9, and the reloaded matrix is 9-by-9, so the
round trip does not reproduce a dimension-10 matrix. -/
theorem claim1_counterexample :
    (eye 10).length = 10 ∧
      (load_state ["H", "E", "Z", "F"] (some "adj_state.json")
        (fun _ => .content (.record (save_record (eye 10) 5)))).matrix.length = 9 := by
  constructor
  · decide
  · decide

end Adjusted
